import Mathlib

/-!
Shallow embedding of `src/python/mxnet/lr_scheduler.py`: the learning-rate
schedulers `FactorScheduler` and `MultiFactorScheduler`.

Learning rates are modelled as exact rationals (the Python code computes with
floats, but every value in the specification is an exact decimal), update
counters and steps as naturals, the Python `raise` statements of the
constructors as `Except.error`, and the mutable object state as explicit
state passing: `__call__` becomes a function `state → ℕ → state × ℚ`.
Python `None` for `slow_step` is modelled as `0` — the code only ever tests
`slow_step` for truthiness, under which `None` and `0` behave identically.
-/

/-- Lines 86-88 / 111-113 of lr_scheduler.py:
`self.base_lr *= self.factor; if self.base_lr < self.stop_factor_lr:
self.base_lr = self.stop_factor_lr`. -/
def decayClamp (factor stop_factor_lr b : ℚ) : ℚ :=
  if b * factor < stop_factor_lr then stop_factor_lr else b * factor

/-- The recovery `while` loop of `FactorScheduler.__call__` (lines 84-93):
`while num_update > self.count + self.step: self.count += self.step;
self.base_lr *= self.factor` with the clamp.  Embedded with explicit fuel;
fuel `num_update` is always sufficient when `1 ≤ step`, because every
iteration adds `step ≥ 1` to `count` and the loop runs only while
`count + step < num_update`.  Returns `(count, base_lr)`. -/
def factorReplay (st : ℕ) (factor stop_factor_lr : ℚ) :
    ℕ → ℕ → ℕ → ℚ → ℕ × ℚ
  | 0, _, count, b => (count, b)
  | fuel + 1, n, count, b =>
    if count + st < n then
      factorReplay st factor stop_factor_lr fuel n (count + st)
        (decayClamp factor stop_factor_lr b)
    else (count, b)

/-- State of a `FactorScheduler` object (fields set in `LRScheduler.__init__`
and `FactorScheduler.__init__`, lines 16-17 and 62-67). -/
structure FactorScheduler where
  step : ℕ
  factor : ℚ
  stop_factor_lr : ℚ
  base_lr : ℚ
  lr_recovered : Bool
  count : ℕ
  slow_step : ℕ
  slow_lr : Option ℚ
deriving Repr, DecidableEq

/-- Lines 96-119 of `FactorScheduler.__call__`: the slow-start section
(which returns early while inside the window) followed by the steady
decay section. -/
def FactorScheduler.callRest (s : FactorScheduler) (num_update : ℕ) :
    FactorScheduler × ℚ :=
  if s.slow_step ≠ 0 ∧ num_update ≤ s.slow_step then
    match s.slow_lr with
    | none =>
      let v := s.base_lr * s.factor
      ({ s with slow_lr := some v }, v)
    | some v => (s, v)
  else
    let t := if s.slow_lr.isSome then { s with slow_lr := none } else s
    if t.count + t.step < num_update then
      let b := decayClamp t.factor t.stop_factor_lr t.base_lr
      ({ t with count := t.count + t.step, base_lr := b }, b)
    else (t, t.base_lr)

/-- `FactorScheduler.__call__` (lines 69-119): the recovery block
(lines 80-94, executed only while `lr_recovered` is false, and a no-op for
`num_update == 0`), then the slow-start and steady sections. -/
def FactorScheduler.call (s : FactorScheduler) (num_update : ℕ) :
    FactorScheduler × ℚ :=
  let t :=
    if s.lr_recovered then s
    else if num_update = 0 then { s with lr_recovered := true }
    else
      let cb := factorReplay s.step s.factor s.stop_factor_lr num_update
        num_update s.count s.base_lr
      { s with count := cb.1, base_lr := cb.2, lr_recovered := true }
  t.callRest num_update

/-- `FactorScheduler.__init__` (lines 56-67) on top of `LRScheduler.__init__`
(lines 16-17: `base_lr = 0.01`, `lr_recovered = False`).  `step` is taken as
an integer so the `step < 1` validation is faithful; on success it is stored
as a natural. -/
def FactorScheduler.init (step : ℤ) (factor : ℚ) (slow_step : ℕ)
    (stop_factor_lr : ℚ) : Except String FactorScheduler :=
  if step < 1 then
    Except.error "Schedule step must be greater or equal than 1 round"
  else if 1 < factor then
    Except.error "Factor must be no more than 1 to make lr reduce"
  else
    Except.ok
      { step := step.toNat, factor := factor, stop_factor_lr := stop_factor_lr
        base_lr := 1 / 100, lr_recovered := false, count := 0
        slow_step := slow_step, slow_lr := none }

/-- The optimiser assigns `scheduler.base_lr = learning_rate` after
construction (the initial rate is supplied externally); modelled as a
field update. -/
def FactorScheduler.setBaseLr (s : FactorScheduler) (r : ℚ) : FactorScheduler :=
  { s with base_lr := r }

/-- Feed a list of update counters one call at a time; returns the final
state and the list of returned rates. -/
def FactorScheduler.run (s : FactorScheduler) :
    List ℕ → FactorScheduler × List ℚ
  | [] => (s, [])
  | n :: ns =>
    let r := s.call n
    let rest := r.1.run ns
    (rest.1, r.2 :: rest.2)

/-- The state after feeding a list of update counters one call at a time. -/
def FactorScheduler.runState (s : FactorScheduler) (l : List ℕ) :
    FactorScheduler :=
  l.foldl (fun t n => (t.call n).1) s

/-- The recovery `while` loop of `MultiFactorScheduler.__call__`
(lines 172-180): `while self.cur_step_ind <= len(self.step)-1:
if num_update > self.step[self.cur_step_ind]: consume the milestone
else: break`.  Embedded with explicit fuel; fuel `steps.length` is always
sufficient because every iteration advances `cur_step_ind` and the loop
runs only while `cur_step_ind < steps.length`.
Returns `(cur_step_ind, count, base_lr)`. -/
def multiReplay (steps : List ℕ) (factor : ℚ) :
    ℕ → ℕ → ℕ → ℕ → ℚ → ℕ × ℕ × ℚ
  | 0, _, ind, count, b => (ind, count, b)
  | fuel + 1, n, ind, count, b =>
    if ind < steps.length ∧ steps.getD ind 0 < n then
      multiReplay steps factor fuel n (ind + 1) (steps.getD ind 0) (b * factor)
    else (ind, count, b)

/-- State of a `MultiFactorScheduler` object (fields set in
`LRScheduler.__init__` and `MultiFactorScheduler.__init__`,
lines 16-17 and 150-155). -/
structure MultiFactorScheduler where
  step : List ℕ
  factor : ℚ
  base_lr : ℚ
  lr_recovered : Bool
  cur_step_ind : ℕ
  count : ℕ
  slow_step : ℕ
  slow_lr : Option ℚ
deriving Repr, DecidableEq

/-- Lines 183-205 of `MultiFactorScheduler.__call__`: slow-start section,
then the steady milestone-consuming section (which consumes at most one
milestone and returns `base_lr` on every path). -/
def MultiFactorScheduler.callRest (s : MultiFactorScheduler) (num_update : ℕ) :
    MultiFactorScheduler × ℚ :=
  if s.slow_step ≠ 0 ∧ num_update ≤ s.slow_step then
    match s.slow_lr with
    | none =>
      let v := s.base_lr * s.factor
      ({ s with slow_lr := some v }, v)
    | some v => (s, v)
  else
    let t := if s.slow_lr.isSome then { s with slow_lr := none } else s
    if t.cur_step_ind < t.step.length ∧
        t.step.getD t.cur_step_ind 0 < num_update then
      let b := t.base_lr * t.factor
      ({ t with cur_step_ind := t.cur_step_ind + 1,
                count := t.step.getD t.cur_step_ind 0, base_lr := b }, b)
    else (t, t.base_lr)

/-- `MultiFactorScheduler.__call__` (lines 157-205). -/
def MultiFactorScheduler.call (s : MultiFactorScheduler) (num_update : ℕ) :
    MultiFactorScheduler × ℚ :=
  let t :=
    if s.lr_recovered then s
    else if num_update = 0 then { s with lr_recovered := true }
    else
      let r := multiReplay s.step s.factor s.step.length num_update
        s.cur_step_ind s.count s.base_lr
      { s with cur_step_ind := r.1, count := r.2.1, base_lr := r.2.2,
               lr_recovered := true }
  t.callRest num_update

/-- The per-element checks of the `for` loop in `MultiFactorScheduler.__init__`
(lines 141-145) for the elements after the first, scanning left to right and
comparing each element with its predecessor. -/
def checkStepList : ℤ → List ℤ → Except String Unit
  | _, [] => Except.ok ()
  | prev, x :: rest =>
    if x ≤ prev then
      Except.error "Schedule step must be an increasing integer list"
    else if x < 1 then
      Except.error "Schedule step must be greater or equal than 1 round"
    else checkStepList x rest

/-- `MultiFactorScheduler.__init__` (lines 138-155): the `assert` on a
non-empty list, the element checks (the first element gets only the `< 1`
check), the factor check, and the slow-step check
(`if slow_step and slow_step >= step[0]`). -/
def MultiFactorScheduler.init (step : List ℤ) (factor : ℚ) (slow_step : ℕ) :
    Except String MultiFactorScheduler :=
  match step with
  | [] => Except.error "assert: step must be a non-empty list"
  | x0 :: rest =>
    if x0 < 1 then
      Except.error "Schedule step must be greater or equal than 1 round"
    else
      match checkStepList x0 rest with
      | Except.error e => Except.error e
      | Except.ok _ =>
        if 1 < factor then
          Except.error "Factor must be no more than 1 to make lr reduce"
        else if slow_step ≠ 0 ∧ x0 ≤ (slow_step : ℤ) then
          Except.error "Slow step must be less than the first step"
        else
          Except.ok
            { step := step.map Int.toNat, factor := factor, base_lr := 1 / 100
              lr_recovered := false, cur_step_ind := 0, count := 0
              slow_step := slow_step, slow_lr := none }

/-- Externally supplied initial rate for a `MultiFactorScheduler`. -/
def MultiFactorScheduler.setBaseLr (s : MultiFactorScheduler) (r : ℚ) :
    MultiFactorScheduler :=
  { s with base_lr := r }

/-- Feed a list of update counters one call at a time. -/
def MultiFactorScheduler.run (s : MultiFactorScheduler) :
    List ℕ → MultiFactorScheduler × List ℚ
  | [] => (s, [])
  | n :: ns =>
    let r := s.call n
    let rest := r.1.run ns
    (rest.1, r.2 :: rest.2)

/-- The state after feeding a list of update counters one call at a time. -/
def MultiFactorScheduler.runState (s : MultiFactorScheduler) (l : List ℕ) :
    MultiFactorScheduler :=
  l.foldl (fun t n => (t.call n).1) s

/-- A freshly constructed interval scheduler with externally assigned
initial rate, used throughout the examples. -/
def mkFactor (st : ℕ) (factor stop_factor_lr : ℚ) (slow_step : ℕ)
    (base_lr : ℚ) : FactorScheduler :=
  { step := st, factor := factor, stop_factor_lr := stop_factor_lr
    base_lr := base_lr, lr_recovered := false, count := 0
    slow_step := slow_step, slow_lr := none }

/-- A freshly constructed milestone scheduler with externally assigned
initial rate. -/
def mkMulti (steps : List ℕ) (factor : ℚ) (slow_step : ℕ)
    (base_lr : ℚ) : MultiFactorScheduler :=
  { step := steps, factor := factor, base_lr := base_lr
    lr_recovered := false, cur_step_ind := 0, count := 0
    slow_step := slow_step, slow_lr := none }

/-- Effect of the steady decay section of `FactorScheduler.__call__`
(lines 109-118) on the pair `(count, base_lr)`: at most one boundary
crossing per call. -/
def factorSteadyUpdate (st : ℕ) (factor stop_factor_lr : ℚ) (k : ℕ)
    (cb : ℕ × ℚ) : ℕ × ℚ :=
  if cb.1 + st < k then (cb.1 + st, decayClamp factor stop_factor_lr cb.2)
  else cb

/-- Effect of the steady section of `MultiFactorScheduler.__call__`
(lines 196-205) on `(cur_step_ind, count, base_lr)`: at most one milestone
consumed per call. -/
def multiSteadyUpdate (steps : List ℕ) (factor : ℚ) (k : ℕ)
    (icb : ℕ × ℕ × ℚ) : ℕ × ℕ × ℚ :=
  if icb.1 < steps.length ∧ steps.getD icb.1 0 < k then
    (icb.1 + 1, steps.getD icb.1 0, icb.2.2 * factor)
  else icb

/-- `(count, base_lr)` after delivering the counters `0, 1, …, n` one at a
time to the steady decay section, starting from `(0, b0)`. -/
def factorStepped (st : ℕ) (factor stop_factor_lr : ℚ) (b0 : ℚ) (n : ℕ) :
    ℕ × ℚ :=
  (List.range (n + 1)).foldl
    (fun cb k => factorSteadyUpdate st factor stop_factor_lr k cb) (0, b0)

/-- `(cur_step_ind, count, base_lr)` after delivering the counters
`0, 1, …, n` one at a time to the steady milestone section, starting from
`(0, 0, b0)`. -/
def multiStepped (steps : List ℕ) (factor : ℚ) (b0 : ℚ) (n : ℕ) :
    ℕ × ℕ × ℚ :=
  (List.range (n + 1)).foldl
    (fun icb k => multiSteadyUpdate steps factor k icb) (0, 0, b0)

/-- C1: the claim's concrete scenario fails on the code.  With
`interval=10, decay_factor=1/2`, initial rate `1`, feeding the counters
`0, 10, 11, 31` one call at a time returns `1, 1, 1/2, 1/4`: the call at
counter `31` applies the decay only once (the steady section of
`FactorScheduler.__call__` is a single `if`, not a loop), so it returns
`1/4`, not the claimed `1/8`. -/
theorem C1_counterexample :
    ((mkFactor 10 (1/2) (1/100000000) 0 1).run [0, 10, 11, 31]).2
        = [1, 1, 1/2, 1/4]
      ∧ ((1 : ℚ)/4 ≠ 1/8) := by
  constructor
  · norm_num [FactorScheduler.run, FactorScheduler.call,
      FactorScheduler.callRest, factorReplay, decayClamp, mkFactor]
  · norm_num

/-- C1 (amended): the decay is applied once per crossed interval within a
single invocation only in the first call (the recovery loop).  After the
first call, each call applies the decay at most once: the stepped sequence
`0, 10, 11, 31` returns `1, 1, 1/2, 1/4`, while a fresh scheduler whose
first call is at counter `31` returns `1/8` (three crossings replayed in
that one call). -/
theorem C1_amended :
    ((mkFactor 10 (1/2) (1/100000000) 0 1).run [0, 10, 11, 31]).2
        = [1, 1, 1/2, 1/4]
      ∧ ((mkFactor 10 (1/2) (1/100000000) 0 1).call 31).2 = 1/8 := by
  constructor <;>
    norm_num [FactorScheduler.run, FactorScheduler.call,
      FactorScheduler.callRest, factorReplay, decayClamp, mkFactor]

/-- C3: the claim fails on the code: `FactorScheduler.__init__` performs no
validation of `slow_step` against `step`, so an interval-variant
configuration with `slow_start_threshold = 20 ≥ interval = 10` is accepted
(construction succeeds and yields the ordinary fresh state). -/
theorem C3_counterexample :
    FactorScheduler.init 10 (1/2) 20 (1/100000000)
      = Except.ok (mkFactor 10 (1/2) (1/100000000) 20 (1/100)) := by
  norm_num [FactorScheduler.init, mkFactor, Int.toNat]

/-- C4: for the milestone variant with milestones `[5, 10, 20]`,
`decay_factor = 1/10`, initial rate `1`: the calls at counters
`4, 6, 15, 25` return `1, 1/10, 1/100, 1/1000`, and a freshly constructed
scheduler called directly at counter `25` (checkpoint-resume replay) also
returns `1/1000`. -/
theorem C4_milestone_trace :
    ((mkMulti [5, 10, 20] (1/10) 0 1).run [4, 6, 15, 25]).2
        = [1, 1/10, 1/100, 1/1000]
      ∧ ((mkMulti [5, 10, 20] (1/10) 0 1).call 25).2 = 1/1000 := by
  constructor <;>
    norm_num [MultiFactorScheduler.run, MultiFactorScheduler.call,
      MultiFactorScheduler.callRest, multiReplay, mkMulti]

/-- C5: slow start with `slow_start_threshold = 3` on the interval variant
(`interval = 10`, `decay_factor = 1/2`, initial rate `1`): the calls at
counters `0` through `3` all return the cached override `1/2`; the override
is computed once on the first call (which stores `slow_lr = 1/2`), and the
calls at `1, 2, 3` return it without changing the state at all; the call at
counter `4` returns the base rate `1` with the override cleared and the
decay bookkeeping (`base_lr`, `count`) untouched. -/
theorem C5_slow_start_trace :
    ((mkFactor 10 (1/2) (1/100000000) 3 1).run [0, 1, 2, 3, 4]).2
        = [1/2, 1/2, 1/2, 1/2, 1]
      ∧ (mkFactor 10 (1/2) (1/100000000) 3 1).call 0
          = ({ mkFactor 10 (1/2) (1/100000000) 3 1 with
               lr_recovered := true, slow_lr := some (1/2) }, 1/2)
      ∧ ({ mkFactor 10 (1/2) (1/100000000) 3 1 with
           lr_recovered := true, slow_lr := some (1/2) } :
          FactorScheduler).call 1
          = ({ mkFactor 10 (1/2) (1/100000000) 3 1 with
               lr_recovered := true, slow_lr := some (1/2) }, 1/2)
      ∧ ({ mkFactor 10 (1/2) (1/100000000) 3 1 with
           lr_recovered := true, slow_lr := some (1/2) } :
          FactorScheduler).call 2
          = ({ mkFactor 10 (1/2) (1/100000000) 3 1 with
               lr_recovered := true, slow_lr := some (1/2) }, 1/2)
      ∧ ({ mkFactor 10 (1/2) (1/100000000) 3 1 with
           lr_recovered := true, slow_lr := some (1/2) } :
          FactorScheduler).call 3
          = ({ mkFactor 10 (1/2) (1/100000000) 3 1 with
               lr_recovered := true, slow_lr := some (1/2) }, 1/2)
      ∧ ({ mkFactor 10 (1/2) (1/100000000) 3 1 with
           lr_recovered := true, slow_lr := some (1/2) } :
          FactorScheduler).call 4
          = ({ mkFactor 10 (1/2) (1/100000000) 3 1 with
               lr_recovered := true }, 1) := by
  refine ⟨?_, ?_, ?_, ?_, ?_, ?_⟩ <;>
    norm_num [FactorScheduler.run, FactorScheduler.call,
      FactorScheduler.callRest, factorReplay, decayClamp, mkFactor]

/-- C9: the claim fails on the code: there is no uniform out-of-order
policy.  With a slow-start window (`interval = 10`, `decay_factor = 1/2`,
`slow_start_threshold = 4`, initial rate `1`), calling at counter `5` returns
`1`, and the subsequent decreasing call at counter `3` neither raises
(`__call__` contains no raise) nor repeats the previous rate: it re-enters
the slow-start window and returns the override `1/2 ≠ 1`. -/
theorem C9_counterexample :
    ((mkFactor 10 (1/2) (1/100000000) 4 1).run [5, 3]).2 = [1, 1/2]
      ∧ ((1 : ℚ)/2 ≠ 1) := by
  constructor
  · norm_num [FactorScheduler.run, FactorScheduler.call,
      FactorScheduler.callRest, factorReplay, decayClamp, mkFactor]
  · norm_num

/-- C9 (amended): the code applies no ordering guard: a decreasing counter
is processed by the normal logic, so the returned rate depends on the
configuration.  Without slow start, the call at `3` after the call at `5`
returns the previous rate `1` unchanged; with `slow_start_threshold = 4`
the same decreasing call returns the slow-start override `1/2` instead, so
no single policy holds across configurations. -/
theorem C9_amended :
    ((mkFactor 10 (1/2) (1/100000000) 0 1).run [5, 3]).2 = [1, 1]
      ∧ ((mkFactor 10 (1/2) (1/100000000) 4 1).run [5, 3]).2 = [1, 1/2] := by
  constructor <;>
    norm_num [FactorScheduler.run, FactorScheduler.call,
      FactorScheduler.callRest, factorReplay, decayClamp, mkFactor]

/-- C6: the claim fails on the code: with `interval = 1`,
`slow_start_threshold = 3` (`decay_factor = 1/2`, initial rate `1`,
a configuration `FactorScheduler.__init__` accepts), the first call at
counter `5` replays to `base_lr = 1/16, count = 4`, while delivering
`0, 1, 2, 3, 4, 5` one at a time yields `base_lr = 1/4, count = 2` —
the slow-start window suppresses the steady decay section (early return),
which the recovery loop does not reproduce. -/
theorem C6_counterexample :
    ((mkFactor 1 (1/2) (1/100000000) 3 1).call 5).1.base_lr = 1/16
      ∧ ((mkFactor 1 (1/2) (1/100000000) 3 1).call 5).1.count = 4
      ∧ ((mkFactor 1 (1/2) (1/100000000) 3 1).runState
          [0, 1, 2, 3, 4, 5]).base_lr = 1/4
      ∧ ((mkFactor 1 (1/2) (1/100000000) 3 1).runState
          [0, 1, 2, 3, 4, 5]).count = 2
      ∧ ((1 : ℚ)/16 ≠ 1/4) := by
  refine ⟨?_, ?_, ?_, ?_, by norm_num⟩ <;>
    norm_num [FactorScheduler.runState, FactorScheduler.call,
      FactorScheduler.callRest, factorReplay, decayClamp, mkFactor]

/-- C7: the claim fails on the code: the constructor accepts
`decay_factor = -2` (the check is only `factor > 1.0`) and the initial rate
is externally assigned, so with `base_lr = -1` a boundary crossing sets
`base_lr` to `(-1) * (-2) = 2`, which is an increase and is not the clamp
value `stop_factor_lr`. -/
theorem C7_counterexample :
    FactorScheduler.init 10 (-2) 0 (1/100000000)
        = Except.ok (mkFactor 10 (-2) (1/100000000) 0 (1/100))
      ∧ (mkFactor 10 (-2) (1/100000000) 0 (1/100)).setBaseLr (-1)
          = mkFactor 10 (-2) (1/100000000) 0 (-1)
      ∧ ((mkFactor 10 (-2) (1/100000000) 0 (-1)).call 0).1
          = { mkFactor 10 (-2) (1/100000000) 0 (-1) with lr_recovered := true }
      ∧ (({ mkFactor 10 (-2) (1/100000000) 0 (-1) with
            lr_recovered := true } : FactorScheduler).call 11).1.base_lr = 2
      ∧ ¬((2 : ℚ) ≤ -1)
      ∧ ((2 : ℚ) ≠ 1/100000000) := by
  refine ⟨?_, ?_, ?_, ?_, by norm_num, by norm_num⟩ <;>
    norm_num [FactorScheduler.init, FactorScheduler.setBaseLr,
      FactorScheduler.call, FactorScheduler.callRest, factorReplay,
      decayClamp, mkFactor, Int.toNat]

/-- The clamp never produces a value below the floor. -/
theorem le_decayClamp (factor fl b : ℚ) : fl ≤ decayClamp factor fl b := by
  unfold decayClamp
  split_ifs with h
  · exact le_refl fl
  · exact le_of_not_lt h

/-- For a decay factor at most `1` and a non-negative rate, one decay step
either does not increase the rate or lands exactly on the floor. -/
theorem decayClamp_le_or_eq (factor fl b : ℚ)
    (hf1 : factor ≤ 1) (hb : 0 ≤ b) :
    decayClamp factor fl b ≤ b ∨ decayClamp factor fl b = fl := by
  unfold decayClamp
  split_ifs with h
  · exact Or.inr rfl
  · exact Or.inl (mul_le_of_le_one_right hb hf1)

/-- For a decay factor in `[0, 1]`, one decay step keeps the rate
non-negative. -/
theorem decayClamp_nonneg (factor fl b : ℚ) (hf0 : 0 ≤ factor)
    (hb : 0 ≤ b) : 0 ≤ decayClamp factor fl b := by
  unfold decayClamp
  split_ifs with h
  · exact le_of_lt (lt_of_le_of_lt (mul_nonneg hb hf0) h)
  · exact mul_nonneg hb hf0

/-- If the loop guard is already false, the recovery loop is the
identity, whatever the fuel. -/
theorem factorReplay_stop (st : ℕ) (f fl : ℚ) (fuel n count : ℕ) (b : ℚ)
    (h : ¬ count + st < n) :
    factorReplay st f fl fuel n count b = (count, b) := by
  cases fuel with
  | zero => rfl
  | succ fuel => simp [factorReplay, h]

/-- Fuel irrelevance: any two sufficient fuels compute the same result of
the recovery loop (`1 ≤ st`: each iteration adds `st` to `count`). -/
theorem factorReplay_congr (st : ℕ) (f fl : ℚ) (hst : 1 ≤ st) :
    ∀ (fuel₁ fuel₂ n count : ℕ) (b : ℚ), n ≤ count + st + fuel₁ →
      n ≤ count + st + fuel₂ →
      factorReplay st f fl fuel₁ n count b
        = factorReplay st f fl fuel₂ n count b := by
  intro fuel₁
  induction fuel₁ with
  | zero =>
    intro fuel₂ n count b h₁ h₂
    rw [factorReplay_stop st f fl 0 n count b (by omega),
      factorReplay_stop st f fl fuel₂ n count b (by omega)]
  | succ fuel ih =>
    intro fuel₂ n count b h₁ h₂
    cases fuel₂ with
    | zero =>
      rw [factorReplay_stop st f fl (fuel + 1) n count b (by omega),
        factorReplay_stop st f fl 0 n count b (by omega)]
    | succ fuel₂ =>
      simp only [factorReplay]
      split_ifs with h
      · exact ih fuel₂ n (count + st) _ (by omega) (by omega)
      · rfl

/-- Loop postcondition: with sufficient fuel, the recovery loop exits with
the guard false, i.e. `n ≤ count + st`. -/
theorem factorReplay_post (st : ℕ) (f fl : ℚ) (hst : 1 ≤ st) :
    ∀ (fuel n count : ℕ) (b : ℚ), n ≤ count + st + fuel →
      n ≤ (factorReplay st f fl fuel n count b).1 + st := by
  intro fuel
  induction fuel with
  | zero =>
    intro n count b h
    simpa [factorReplay] using h
  | succ fuel ih =>
    intro n count b h
    simp only [factorReplay]
    split_ifs with hc
    · exact ih n (count + st) _ (by omega)
    · simpa using (by omega : n ≤ count + st)

/-- Commutation of replay with one steady step: replaying up to `n + 1`
equals replaying up to `n` and then performing one steady update at
`n + 1`. -/
theorem factorReplay_commute (st : ℕ) (f fl : ℚ) (hst : 1 ≤ st) :
    ∀ (fuel n count : ℕ) (b : ℚ), n + 1 ≤ count + st + fuel →
      factorReplay st f fl fuel (n + 1) count b
        = factorSteadyUpdate st f fl (n + 1)
            (factorReplay st f fl fuel n count b) := by
  intro fuel
  induction fuel with
  | zero =>
    intro n count b h
    simp only [factorReplay, factorSteadyUpdate]
    rw [if_neg (by omega)]
  | succ fuel ih =>
    intro n count b h
    rcases lt_trichotomy (count + st) n with h1 | h2 | h3
    · simp only [factorReplay]
      rw [if_pos (by omega), if_pos (by omega)]
      exact ih n (count + st) _ (by omega)
    · simp only [factorReplay]
      rw [if_pos (by omega), if_neg (by omega),
        factorReplay_stop st f fl fuel (n + 1) (count + st) _ (by omega)]
      simp only [factorSteadyUpdate]
      rw [if_pos (by omega)]
    · simp only [factorReplay]
      rw [if_neg (by omega), if_neg (by omega)]
      simp only [factorSteadyUpdate]
      rw [if_neg (by omega)]

/-- Stepped delivery of `0, 1, …, n` to the steady section equals the
recovery loop invoked once at `n` (with its own fuel `n`, as in
`FactorScheduler.__call__`). -/
theorem factorStepped_eq_replay (st : ℕ) (f fl b0 : ℚ) (hst : 1 ≤ st) :
    ∀ n : ℕ, factorStepped st f fl b0 n = factorReplay st f fl n n 0 b0 := by
  intro n
  induction n with
  | zero =>
    simp [factorStepped, factorSteadyUpdate, factorReplay, List.range_succ]
  | succ n ih =>
    have hfold : factorStepped st f fl b0 (n + 1)
        = factorSteadyUpdate st f fl (n + 1) (factorStepped st f fl b0 n) := by
      simp [factorStepped, List.range_succ]
    rw [hfold, ih, ← factorReplay_commute st f fl hst n n 0 b0 (by omega),
      factorReplay_congr st f fl hst n (n + 1) (n + 1) 0 b0 (by omega)
        (by omega)]

/-- One fold step of the stepped delivery. -/
theorem factorStepped_succ (st : ℕ) (f fl b0 : ℚ) (k : ℕ) :
    factorStepped st f fl b0 (k + 1)
      = factorSteadyUpdate st f fl (k + 1) (factorStepped st f fl b0 k) := by
  simp [factorStepped, List.range_succ]

/-- Stepped delivery below the first boundary is the identity on
`(count, base_lr)`. -/
theorem factorStepped_small (st : ℕ) (f fl b0 : ℚ) (k : ℕ) (hk : k ≤ st) :
    factorStepped st f fl b0 k = (0, b0) := by
  induction k with
  | zero => simp [factorStepped, factorSteadyUpdate, List.range_succ]
  | succ k ih =>
    rw [factorStepped_succ, ih (by omega)]
    simp only [factorSteadyUpdate]
    rw [if_neg (by omega)]

/-- Splitting a stepped run. -/
theorem factor_runState_append (s : FactorScheduler)
    (l1 l2 : List ℕ) : s.runState (l1 ++ l2) = (s.runState l1).runState l2 := by
  simp [FactorScheduler.runState, List.foldl_append]

/-- Once `lr_recovered` holds, the recovery block of
`FactorScheduler.__call__` is skipped entirely. -/
theorem factor_call_recovered (s : FactorScheduler) (n : ℕ)
    (h : s.lr_recovered = true) : s.call n = s.callRest n := by
  simp [FactorScheduler.call, h]

/-- The first call: the recovery block replays (with fuel `n`, a no-op for
`n = 0`), sets the flag, and hands over to the rest of the body. -/
theorem factor_call_first (s : FactorScheduler) (n : ℕ)
    (h : s.lr_recovered = false) :
    s.call n
      = ({ s with
           count := (factorReplay s.step s.factor s.stop_factor_lr n n
             s.count s.base_lr).1,
           base_lr := (factorReplay s.step s.factor s.stop_factor_lr n n
             s.count s.base_lr).2,
           lr_recovered := true } : FactorScheduler).callRest n := by
  cases n with
  | zero => simp [FactorScheduler.call, h, factorReplay]
  | succ n => simp [FactorScheduler.call, h]

/-- The slow-start and steady sections never change the configuration
fields, and never reset the recovery flag. -/
theorem factor_callRest_fields (s : FactorScheduler) (n : ℕ) :
    (s.callRest n).1.step = s.step ∧ (s.callRest n).1.factor = s.factor
      ∧ (s.callRest n).1.stop_factor_lr = s.stop_factor_lr
      ∧ (s.callRest n).1.slow_step = s.slow_step
      ∧ (s.callRest n).1.lr_recovered = s.lr_recovered := by
  rcases hsl : s.slow_lr with _ | v <;>
    · simp only [FactorScheduler.callRest, hsl]
      split_ifs <;> simp

/-- A full call never changes the configuration fields, and always leaves
the recovery flag set. -/
theorem factor_call_fields (s : FactorScheduler) (n : ℕ) :
    (s.call n).1.step = s.step ∧ (s.call n).1.factor = s.factor
      ∧ (s.call n).1.stop_factor_lr = s.stop_factor_lr
      ∧ (s.call n).1.slow_step = s.slow_step
      ∧ (s.call n).1.lr_recovered = true := by
  cases hrec : s.lr_recovered with
  | true =>
    rw [factor_call_recovered s n hrec]
    have h := factor_callRest_fields s n
    exact ⟨h.1, h.2.1, h.2.2.1, h.2.2.2.1, by rw [h.2.2.2.2, hrec]⟩
  | false =>
    rw [factor_call_first s n hrec]
    have h := factor_callRest_fields
      ({ s with
         count := (factorReplay s.step s.factor s.stop_factor_lr n n
           s.count s.base_lr).1,
         base_lr := (factorReplay s.step s.factor s.stop_factor_lr n n
           s.count s.base_lr).2,
         lr_recovered := true } : FactorScheduler) n
    exact ⟨h.1, h.2.1, h.2.2.1, h.2.2.2.1, h.2.2.2.2⟩

/-- When the slow-start threshold does not exceed the interval, the
slow-start and steady sections act on `(count, base_lr)` exactly as one
steady update (inside the window the steady update is vacuous). -/
theorem factor_callRest_proj (s : FactorScheduler) (n : ℕ)
    (hsl : s.slow_step ≤ s.step) :
    ((s.callRest n).1.count, (s.callRest n).1.base_lr)
      = factorSteadyUpdate s.step s.factor s.stop_factor_lr n
          (s.count, s.base_lr) := by
  rcases hslv : s.slow_lr with _ | v <;>
    · simp only [FactorScheduler.callRest, hslv, factorSteadyUpdate]
      split_ifs <;> first
        | rfl
        | (exfalso; omega)

/-- Characterisation of the state after delivering `0, 1, …, k` one call at
a time to a fresh interval scheduler whose slow-start threshold does not
exceed the interval: the flag is set, `(count, base_lr)` follow the stepped
fold, and the slow-start cache holds `b0 * f` exactly while inside the
window. -/
theorem factor_runState_range (st : ℕ) (f fl b0 : ℚ) (slow : ℕ)
    (hst : 1 ≤ st) (hsl : slow ≤ st) :
    ∀ k : ℕ, (mkFactor st f fl slow b0).runState (List.range (k + 1))
      = { step := st, factor := f, stop_factor_lr := fl,
          base_lr := (factorStepped st f fl b0 k).2, lr_recovered := true,
          count := (factorStepped st f fl b0 k).1, slow_step := slow,
          slow_lr := if slow ≠ 0 ∧ k ≤ slow then some (b0 * f) else none } := by
  intro k
  induction k with
  | zero =>
    have h0 : (mkFactor st f fl slow b0).runState (List.range 1)
        = ((mkFactor st f fl slow b0).call 0).1 := rfl
    rw [h0, factor_call_first _ _ rfl,
      factorStepped_small st f fl b0 0 (by omega)]
    simp only [factorReplay, mkFactor, FactorScheduler.callRest]
    split_ifs with h <;> simp_all
  | succ k ih =>
    have hsplit : List.range (k + 1 + 1) = List.range (k + 1) ++ [k + 1] :=
      List.range_succ (k + 1)
    have hone : ∀ t : FactorScheduler, t.runState [k + 1] = (t.call (k + 1)).1 :=
      fun t => rfl
    rw [hsplit, factor_runState_append, ih, hone,
      factor_call_recovered _ _ rfl]
    by_cases hwin : slow ≠ 0 ∧ k + 1 ≤ slow
    · have hcache : (if slow ≠ 0 ∧ k ≤ slow then some (b0 * f) else none)
          = some (b0 * f) := if_pos ⟨hwin.1, by omega⟩
      have hnoop : factorStepped st f fl b0 (k + 1)
          = factorStepped st f fl b0 k := by
        rw [factorStepped_succ]
        unfold factorSteadyUpdate
        rw [if_neg (by omega)]
      rw [hnoop]
      simp only [FactorScheduler.callRest, hcache]
      rw [if_pos hwin, if_pos hwin]
    · have hst1 : factorStepped st f fl b0 (k + 1)
          = factorSteadyUpdate st f fl (k + 1) (factorStepped st f fl b0 k) :=
        factorStepped_succ st f fl b0 k
      by_cases hprev : slow ≠ 0 ∧ k ≤ slow
      · have hcache : (if slow ≠ 0 ∧ k ≤ slow then some (b0 * f) else none)
            = some (b0 * f) := if_pos hprev
        simp only [FactorScheduler.callRest, hcache]
        rw [if_neg hwin, hst1]
        unfold factorSteadyUpdate
        split_ifs <;> simp_all
      · have hcache : (if slow ≠ 0 ∧ k ≤ slow then some (b0 * f) else none)
            = none := if_neg hprev
        simp only [FactorScheduler.callRest, hcache]
        rw [if_neg hwin, hst1]
        unfold factorSteadyUpdate
        split_ifs <;> simp_all

/-- On a fresh interval scheduler (threshold not exceeding the interval),
the first call leaves `(count, base_lr)` exactly at the result of the
recovery loop: the steady section cannot fire again (loop postcondition),
and the slow-start section does not touch these fields. -/
theorem factor_first_call_state (st : ℕ) (f fl b0 : ℚ) (slow : ℕ)
    (hst : 1 ≤ st) (hsl : slow ≤ st) (n : ℕ) :
    (((mkFactor st f fl slow b0).call n).1.count,
        ((mkFactor st f fl slow b0).call n).1.base_lr)
      = factorReplay st f fl n n 0 b0 := by
  have hpost := factorReplay_post st f fl hst n n 0 b0 (by omega)
  rw [factor_call_first _ _ rfl, factor_callRest_proj _ _ (by simpa using hsl)]
  show factorSteadyUpdate st f fl n (factorReplay st f fl n n 0 b0) = _
  unfold factorSteadyUpdate
  rw [if_neg (by omega)]

/-- The rate returned by the first call on a fresh interval scheduler
(threshold not exceeding the interval): inside the slow-start window it is
`b0 * f`, otherwise the replayed base rate. -/
theorem factor_first_call_rate (st : ℕ) (f fl b0 : ℚ) (slow : ℕ)
    (hst : 1 ≤ st) (hsl : slow ≤ st) (n : ℕ) :
    ((mkFactor st f fl slow b0).call n).2
      = if slow ≠ 0 ∧ n ≤ slow then b0 * f
        else (factorReplay st f fl n n 0 b0).2 := by
  have hpost := factorReplay_post st f fl hst n n 0 b0 (by omega)
  rw [factor_call_first _ _ rfl]
  simp only [mkFactor]
  by_cases hwin : slow ≠ 0 ∧ n ≤ slow
  · rw [if_pos hwin]
    rw [factorReplay_stop st f fl n n 0 b0 (by omega)]
    simp only [FactorScheduler.callRest]
    rw [if_pos hwin]
  · rw [if_neg hwin]
    simp only [FactorScheduler.callRest]
    rw [if_neg hwin]
    simp only [Option.isSome_none, Bool.false_eq_true, if_false]
    rw [if_neg (by simpa using (by omega : ¬ (factorReplay st f fl n n 0
      b0).1 + st < n))]

/-- Stepped delivery of `0, 1, …, n` and a single fresh call at `n` return
the same final rate (interval variant, threshold not exceeding the
interval). -/
theorem factor_stepped_final_rate (st : ℕ) (f fl b0 : ℚ) (slow : ℕ)
    (hst : 1 ≤ st) (hsl : slow ≤ st) (n : ℕ) :
    (((mkFactor st f fl slow b0).runState (List.range n)).call n).2
      = ((mkFactor st f fl slow b0).call n).2 := by
  cases n with
  | zero => rfl
  | succ k =>
    rw [factor_runState_range st f fl b0 slow hst hsl k,
      factor_call_recovered _ _ rfl,
      factor_first_call_rate st f fl b0 slow hst hsl (k + 1)]
    have hrep : factorStepped st f fl b0 (k + 1)
        = factorReplay st f fl (k + 1) (k + 1) 0 b0 :=
      factorStepped_eq_replay st f fl b0 hst (k + 1)
    have hsucc : factorStepped st f fl b0 (k + 1)
        = factorSteadyUpdate st f fl (k + 1) (factorStepped st f fl b0 k) :=
      factorStepped_succ st f fl b0 k
    by_cases hwin : slow ≠ 0 ∧ k + 1 ≤ slow
    · have hcache : (if slow ≠ 0 ∧ k ≤ slow then some (b0 * f) else none)
          = some (b0 * f) := if_pos ⟨hwin.1, by omega⟩
      simp only [FactorScheduler.callRest, hcache]
      rw [if_pos hwin, if_pos hwin]
    · rw [if_neg hwin, ← hrep, hsucc]
      by_cases hprev : slow ≠ 0 ∧ k ≤ slow
      · have hcache : (if slow ≠ 0 ∧ k ≤ slow then some (b0 * f) else none)
            = some (b0 * f) := if_pos hprev
        simp only [FactorScheduler.callRest, hcache]
        rw [if_neg hwin]
        unfold factorSteadyUpdate
        split_ifs <;> simp_all
      · have hcache : (if slow ≠ 0 ∧ k ≤ slow then some (b0 * f) else none)
            = none := if_neg hprev
        simp only [FactorScheduler.callRest, hcache]
        rw [if_neg hwin]
        unfold factorSteadyUpdate
        split_ifs <;> simp_all

/-- If the loop guard is already false, the milestone recovery loop is the
identity, whatever the fuel. -/
theorem multiReplay_stop (steps : List ℕ) (f : ℚ) (fuel n ind count : ℕ)
    (b : ℚ) (h : ¬ (ind < steps.length ∧ steps.getD ind 0 < n)) :
    multiReplay steps f fuel n ind count b = (ind, count, b) := by
  cases fuel with
  | zero => rfl
  | succ fuel =>
    simp only [multiReplay]
    rw [if_neg h]

/-- Loop postcondition: with sufficient fuel, the milestone recovery loop
exits with the guard false. -/
theorem multiReplay_post (steps : List ℕ) (f : ℚ) :
    ∀ (fuel n ind count : ℕ) (b : ℚ), steps.length ≤ ind + fuel →
      ¬ ((multiReplay steps f fuel n ind count b).1 < steps.length
          ∧ steps.getD (multiReplay steps f fuel n ind count b).1 0 < n) := by
  intro fuel
  induction fuel with
  | zero =>
    intro n ind count b h
    simp only [multiReplay]
    rintro ⟨h1, -⟩
    omega
  | succ fuel ih =>
    intro n ind count b h
    simp only [multiReplay]
    split_ifs with hc
    · exact ih n (ind + 1) _ _ (by omega)
    · exact hc

/-- Commutation of the milestone recovery loop with one steady update, for
strictly increasing milestones. -/
theorem multiReplay_commute (steps : List ℕ) (f : ℚ)
    (hadj : ∀ i, i + 1 < steps.length
      → steps.getD i 0 < steps.getD (i + 1) 0) :
    ∀ (fuel n ind count : ℕ) (b : ℚ), steps.length ≤ ind + fuel →
      multiReplay steps f fuel (n + 1) ind count b
        = multiSteadyUpdate steps f (n + 1)
            (multiReplay steps f fuel n ind count b) := by
  intro fuel
  induction fuel with
  | zero =>
    intro n ind count b h
    simp only [multiReplay, multiSteadyUpdate]
    rw [if_neg (by rintro ⟨h1, -⟩; omega)]
  | succ fuel ih =>
    intro n ind count b h
    by_cases hc : ind < steps.length
    · rcases lt_trichotomy (steps.getD ind 0) n with hlt | heq | hgt
      · simp only [multiReplay]
        rw [if_pos ⟨hc, by omega⟩, if_pos ⟨hc, hlt⟩]
        exact ih n (ind + 1) _ _ (by omega)
      · simp only [multiReplay]
        rw [if_pos ⟨hc, by omega⟩, if_neg (by rintro ⟨-, h2⟩; omega)]
        rw [multiReplay_stop steps f fuel (n + 1) (ind + 1) _ _ ?hstop]
        · simp only [multiSteadyUpdate]
          rw [if_pos ⟨hc, by omega⟩]
        case hstop =>
          rintro ⟨h1, h2⟩
          have := hadj ind h1
          omega
      · simp only [multiReplay]
        rw [if_neg (by rintro ⟨-, h2⟩; omega),
          if_neg (by rintro ⟨-, h2⟩; omega)]
        simp only [multiSteadyUpdate]
        rw [if_neg (by rintro ⟨-, h2⟩; omega)]
    · simp only [multiReplay]
      rw [if_neg (by rintro ⟨h1, -⟩; omega),
        if_neg (by rintro ⟨h1, -⟩; omega)]
      simp only [multiSteadyUpdate]
      rw [if_neg (by rintro ⟨h1, -⟩; omega)]

/-- One fold step of the stepped milestone delivery. -/
theorem multiStepped_succ (steps : List ℕ) (f b0 : ℚ) (k : ℕ) :
    multiStepped steps f b0 (k + 1)
      = multiSteadyUpdate steps f (k + 1) (multiStepped steps f b0 k) := by
  simp [multiStepped, List.range_succ]

/-- Stepped delivery at counter `0` changes nothing. -/
theorem multiStepped_zero (steps : List ℕ) (f b0 : ℚ) :
    multiStepped steps f b0 0 = (0, 0, b0) := by
  simp [multiStepped, multiSteadyUpdate, List.range_succ]

/-- Stepped milestone delivery of `0, 1, …, n` equals the recovery loop
invoked once at `n` (with fuel `steps.length`, as in
`MultiFactorScheduler.__call__`), for strictly increasing milestones. -/
theorem multiStepped_eq_replay (steps : List ℕ) (f b0 : ℚ)
    (hadj : ∀ i, i + 1 < steps.length
      → steps.getD i 0 < steps.getD (i + 1) 0) :
    ∀ n : ℕ, multiStepped steps f b0 n
      = multiReplay steps f steps.length n 0 0 b0 := by
  intro n
  induction n with
  | zero =>
    rw [multiStepped_zero,
      multiReplay_stop steps f steps.length 0 0 0 b0 (by rintro ⟨-, h2⟩; omega)]
  | succ n ih =>
    rw [multiStepped_succ, ih,
      multiReplay_commute steps f hadj steps.length n 0 0 b0 (by omega)]

/-- Splitting a stepped milestone run. -/
theorem multi_runState_append (s : MultiFactorScheduler)
    (l1 l2 : List ℕ) : s.runState (l1 ++ l2) = (s.runState l1).runState l2 := by
  simp [MultiFactorScheduler.runState, List.foldl_append]

/-- Once `lr_recovered` holds, the recovery block of
`MultiFactorScheduler.__call__` is skipped entirely. -/
theorem multi_call_recovered (s : MultiFactorScheduler) (n : ℕ)
    (h : s.lr_recovered = true) : s.call n = s.callRest n := by
  simp [MultiFactorScheduler.call, h]

/-- The first call: the recovery block replays (a no-op for `n = 0`), sets
the flag, and hands over to the rest of the body. -/
theorem multi_call_first (s : MultiFactorScheduler) (n : ℕ)
    (h : s.lr_recovered = false) :
    s.call n
      = ({ s with
           cur_step_ind := (multiReplay s.step s.factor s.step.length n
             s.cur_step_ind s.count s.base_lr).1,
           count := (multiReplay s.step s.factor s.step.length n
             s.cur_step_ind s.count s.base_lr).2.1,
           base_lr := (multiReplay s.step s.factor s.step.length n
             s.cur_step_ind s.count s.base_lr).2.2,
           lr_recovered := true } : MultiFactorScheduler).callRest n := by
  cases n with
  | zero =>
    rw [multiReplay_stop s.step s.factor s.step.length 0 s.cur_step_ind
      s.count s.base_lr (by rintro ⟨-, h2⟩; omega)]
    simp [MultiFactorScheduler.call, h]
  | succ n => simp [MultiFactorScheduler.call, h]

/-- The slow-start and steady milestone sections never change the
configuration fields, and never reset the recovery flag. -/
theorem multi_callRest_fields (s : MultiFactorScheduler) (n : ℕ) :
    (s.callRest n).1.step = s.step ∧ (s.callRest n).1.factor = s.factor
      ∧ (s.callRest n).1.slow_step = s.slow_step
      ∧ (s.callRest n).1.lr_recovered = s.lr_recovered := by
  rcases hsl : s.slow_lr with _ | v <;>
    · simp only [MultiFactorScheduler.callRest, hsl]
      split_ifs <;> simp

/-- A full milestone-scheduler call never changes the configuration fields,
and always leaves the recovery flag set. -/
theorem multi_call_fields (s : MultiFactorScheduler) (n : ℕ) :
    (s.call n).1.step = s.step ∧ (s.call n).1.factor = s.factor
      ∧ (s.call n).1.slow_step = s.slow_step
      ∧ (s.call n).1.lr_recovered = true := by
  cases hrec : s.lr_recovered with
  | true =>
    rw [multi_call_recovered s n hrec]
    have h := multi_callRest_fields s n
    exact ⟨h.1, h.2.1, h.2.2.1, by rw [h.2.2.2, hrec]⟩
  | false =>
    rw [multi_call_first s n hrec]
    have h := multi_callRest_fields
      ({ s with
         cur_step_ind := (multiReplay s.step s.factor s.step.length n
           s.cur_step_ind s.count s.base_lr).1,
         count := (multiReplay s.step s.factor s.step.length n
           s.cur_step_ind s.count s.base_lr).2.1,
         base_lr := (multiReplay s.step s.factor s.step.length n
           s.cur_step_ind s.count s.base_lr).2.2,
         lr_recovered := true } : MultiFactorScheduler) n
    exact ⟨h.1, h.2.1, h.2.2.1, h.2.2.2⟩

/-- When every milestone is at least the slow-start threshold, the
slow-start and steady sections act on `(cur_step_ind, count, base_lr)`
exactly as one steady milestone update (inside the window the update is
vacuous). -/
theorem multi_callRest_proj (s : MultiFactorScheduler) (n : ℕ)
    (hwin : ∀ i, i < s.step.length → s.slow_step ≤ s.step.getD i 0) :
    ((s.callRest n).1.cur_step_ind,
        (s.callRest n).1.count, (s.callRest n).1.base_lr)
      = multiSteadyUpdate s.step s.factor n
          (s.cur_step_ind, s.count, s.base_lr) := by
  by_cases hw : s.slow_step ≠ 0 ∧ n ≤ s.slow_step
  · have hnc : ¬ (s.cur_step_ind < s.step.length
        ∧ s.step.getD s.cur_step_ind 0 < n) := by
      rintro ⟨hi, hlt⟩
      have := hwin _ hi
      omega
    rcases hslv : s.slow_lr with _ | v <;>
      · simp only [MultiFactorScheduler.callRest, multiSteadyUpdate, hslv]
        rw [if_pos hw, if_neg hnc]
  · rcases hslv : s.slow_lr with _ | v <;>
      · simp only [MultiFactorScheduler.callRest, multiSteadyUpdate, hslv]
        rw [if_neg hw]
        split_ifs <;> simp_all

/-- For strictly increasing milestones the first milestone is minimal. -/
theorem steps_getD_zero_le (steps : List ℕ)
    (hadj : ∀ i, i + 1 < steps.length
      → steps.getD i 0 < steps.getD (i + 1) 0) :
    ∀ i, i < steps.length → steps.getD 0 0 ≤ steps.getD i 0 := by
  intro i
  induction i with
  | zero => intro _; exact le_refl _
  | succ i ih =>
    intro h
    exact le_trans (ih (by omega)) (le_of_lt (hadj i h))

/-- A slow-start threshold below the first milestone (the condition
`MultiFactorScheduler.__init__` enforces) is below every milestone. -/
theorem window_le_steps (steps : List ℕ) (slow : ℕ)
    (hadj : ∀ i, i + 1 < steps.length
      → steps.getD i 0 < steps.getD (i + 1) 0)
    (hslow : slow = 0 ∨ slow < steps.getD 0 0) :
    ∀ i, i < steps.length → slow ≤ steps.getD i 0 := by
  intro i hi
  rcases hslow with h | h
  · omega
  · exact le_trans (le_of_lt h) (steps_getD_zero_le steps hadj i hi)

/-- Characterisation of the state after delivering `0, 1, …, k` one call at
a time to a fresh milestone scheduler whose slow-start threshold is at most
every milestone. -/
theorem multi_runState_range (steps : List ℕ) (f b0 : ℚ) (slow : ℕ)
    (hwin : ∀ i, i < steps.length → slow ≤ steps.getD i 0) :
    ∀ k : ℕ, (mkMulti steps f slow b0).runState (List.range (k + 1))
      = { step := steps, factor := f,
          base_lr := (multiStepped steps f b0 k).2.2, lr_recovered := true,
          cur_step_ind := (multiStepped steps f b0 k).1,
          count := (multiStepped steps f b0 k).2.1, slow_step := slow,
          slow_lr := if slow ≠ 0 ∧ k ≤ slow then some (b0 * f) else none } := by
  intro k
  induction k with
  | zero =>
    have h0 : (mkMulti steps f slow b0).runState (List.range 1)
        = ((mkMulti steps f slow b0).call 0).1 := rfl
    rw [h0, multi_call_first _ _ rfl, multiStepped_zero]
    simp only [mkMulti]
    rw [multiReplay_stop steps f _ 0 0 0 b0 (by rintro ⟨-, h2⟩; omega)]
    simp only [MultiFactorScheduler.callRest]
    split_ifs with h <;> simp_all
  | succ k ih =>
    have hsplit : List.range (k + 1 + 1) = List.range (k + 1) ++ [k + 1] :=
      List.range_succ (k + 1)
    have hone : ∀ t : MultiFactorScheduler,
        t.runState [k + 1] = (t.call (k + 1)).1 := fun t => rfl
    rw [hsplit, multi_runState_append, ih, hone,
      multi_call_recovered _ _ rfl]
    by_cases hwin1 : slow ≠ 0 ∧ k + 1 ≤ slow
    · have hcache : (if slow ≠ 0 ∧ k ≤ slow then some (b0 * f) else none)
          = some (b0 * f) := if_pos ⟨hwin1.1, by omega⟩
      have hnoop : multiStepped steps f b0 (k + 1)
          = multiStepped steps f b0 k := by
        rw [multiStepped_succ]
        unfold multiSteadyUpdate
        rw [if_neg ?hnc]
        case hnc =>
          rintro ⟨hi, hlt⟩
          have := hwin _ hi
          omega
      rw [hnoop]
      simp only [MultiFactorScheduler.callRest, hcache]
      rw [if_pos hwin1, if_pos hwin1]
    · have hst1 : multiStepped steps f b0 (k + 1)
          = multiSteadyUpdate steps f (k + 1) (multiStepped steps f b0 k) :=
        multiStepped_succ steps f b0 k
      by_cases hprev : slow ≠ 0 ∧ k ≤ slow
      · have hcache : (if slow ≠ 0 ∧ k ≤ slow then some (b0 * f) else none)
            = some (b0 * f) := if_pos hprev
        simp only [MultiFactorScheduler.callRest, hcache]
        rw [if_neg hwin1, hst1]
        unfold multiSteadyUpdate
        split_ifs <;> simp_all
      · have hcache : (if slow ≠ 0 ∧ k ≤ slow then some (b0 * f) else none)
            = none := if_neg hprev
        simp only [MultiFactorScheduler.callRest, hcache]
        rw [if_neg hwin1, hst1]
        unfold multiSteadyUpdate
        split_ifs <;> simp_all

/-- On a fresh milestone scheduler whose slow-start threshold is at most
every milestone, the first call leaves `(cur_step_ind, count, base_lr)`
exactly at the result of the recovery loop. -/
theorem multi_first_call_state (steps : List ℕ) (f b0 : ℚ) (slow : ℕ)
    (hwin : ∀ i, i < steps.length → slow ≤ steps.getD i 0) (n : ℕ) :
    (((mkMulti steps f slow b0).call n).1.cur_step_ind,
        ((mkMulti steps f slow b0).call n).1.count,
        ((mkMulti steps f slow b0).call n).1.base_lr)
      = multiReplay steps f steps.length n 0 0 b0 := by
  have hpost := multiReplay_post steps f steps.length n 0 0 b0 (by omega)
  rw [multi_call_first _ _ rfl, multi_callRest_proj _ _ (by simpa using hwin)]
  show multiSteadyUpdate steps f n (multiReplay steps f steps.length n 0 0 b0)
      = _
  unfold multiSteadyUpdate
  rw [if_neg hpost]

/-- The rate returned by the first call on a fresh milestone scheduler
(threshold at most every milestone): inside the slow-start window it is
`b0 * f`, otherwise the replayed base rate. -/
theorem multi_first_call_rate (steps : List ℕ) (f b0 : ℚ) (slow : ℕ)
    (hwin : ∀ i, i < steps.length → slow ≤ steps.getD i 0) (n : ℕ) :
    ((mkMulti steps f slow b0).call n).2
      = if slow ≠ 0 ∧ n ≤ slow then b0 * f
        else (multiReplay steps f steps.length n 0 0 b0).2.2 := by
  have hpost := multiReplay_post steps f steps.length n 0 0 b0 (by omega)
  rw [multi_call_first _ _ rfl]
  simp only [mkMulti]
  by_cases hw : slow ≠ 0 ∧ n ≤ slow
  · rw [if_pos hw]
    rw [multiReplay_stop steps f steps.length n 0 0 b0 ?hnc]
    case hnc =>
      rintro ⟨hi, hlt⟩
      have := hwin 0 hi
      omega
    simp only [MultiFactorScheduler.callRest]
    rw [if_pos hw]
  · rw [if_neg hw]
    simp only [MultiFactorScheduler.callRest]
    rw [if_neg hw]
    simp only [Option.isSome_none, Bool.false_eq_true, if_false]
    rw [if_neg (by simpa using hpost)]

/-- Stepped delivery of `0, 1, …, n` and a single fresh call at `n` return
the same final rate (milestone variant, strictly increasing milestones,
threshold below the first milestone or unset). -/
theorem multi_stepped_final_rate (steps : List ℕ) (f b0 : ℚ) (slow : ℕ)
    (hadj : ∀ i, i + 1 < steps.length
      → steps.getD i 0 < steps.getD (i + 1) 0)
    (hslow : slow = 0 ∨ slow < steps.getD 0 0) (n : ℕ) :
    (((mkMulti steps f slow b0).runState (List.range n)).call n).2
      = ((mkMulti steps f slow b0).call n).2 := by
  have hwin := window_le_steps steps slow hadj hslow
  cases n with
  | zero => rfl
  | succ k =>
    rw [multi_runState_range steps f b0 slow hwin k,
      multi_call_recovered _ _ rfl,
      multi_first_call_rate steps f b0 slow hwin (k + 1)]
    have hrep : multiStepped steps f b0 (k + 1)
        = multiReplay steps f steps.length (k + 1) 0 0 b0 :=
      multiStepped_eq_replay steps f b0 hadj (k + 1)
    have hsucc : multiStepped steps f b0 (k + 1)
        = multiSteadyUpdate steps f (k + 1) (multiStepped steps f b0 k) :=
      multiStepped_succ steps f b0 k
    by_cases hwin1 : slow ≠ 0 ∧ k + 1 ≤ slow
    · have hcache : (if slow ≠ 0 ∧ k ≤ slow then some (b0 * f) else none)
          = some (b0 * f) := if_pos ⟨hwin1.1, by omega⟩
      simp only [MultiFactorScheduler.callRest, hcache]
      rw [if_pos hwin1, if_pos hwin1]
    · rw [if_neg hwin1, ← hrep, hsucc]
      by_cases hprev : slow ≠ 0 ∧ k ≤ slow
      · have hcache : (if slow ≠ 0 ∧ k ≤ slow then some (b0 * f) else none)
            = some (b0 * f) := if_pos hprev
        simp only [MultiFactorScheduler.callRest, hcache]
        rw [if_neg hwin1]
        unfold multiSteadyUpdate
        split_ifs <;> simp_all
      · have hcache : (if slow ≠ 0 ∧ k ≤ slow then some (b0 * f) else none)
            = none := if_neg hprev
        simp only [MultiFactorScheduler.callRest, hcache]
        rw [if_neg hwin1]
        unfold multiSteadyUpdate
        split_ifs <;> simp_all

/-- The recovery loop never drives the rate below the floor. -/
theorem factorReplay_floor (st : ℕ) (f fl : ℚ) :
    ∀ (fuel n count : ℕ) (b : ℚ), fl ≤ b →
      fl ≤ (factorReplay st f fl fuel n count b).2 := by
  intro fuel
  induction fuel with
  | zero => intro n count b hb; exact hb
  | succ fuel ih =>
    intro n count b hb
    simp only [factorReplay]
    split_ifs with h
    · exact ih n (count + st) _ (le_decayClamp f fl b)
    · exact hb

/-- The slow-start and steady sections never drive the rate below the
floor. -/
theorem factor_callRest_floor (s : FactorScheduler) (n : ℕ)
    (hb : s.stop_factor_lr ≤ s.base_lr) :
    s.stop_factor_lr ≤ (s.callRest n).1.base_lr := by
  rcases hsl : s.slow_lr with _ | v <;>
    · simp only [FactorScheduler.callRest, hsl]
      split_ifs <;> first
        | exact hb
        | exact le_decayClamp s.factor s.stop_factor_lr s.base_lr

/-- A full call never drives `base_lr` below the floor. -/
theorem factor_call_floor (s : FactorScheduler) (n : ℕ)
    (hb : s.stop_factor_lr ≤ s.base_lr) :
    s.stop_factor_lr ≤ (s.call n).1.base_lr := by
  cases hrec : s.lr_recovered with
  | true =>
    rw [factor_call_recovered s n hrec]
    exact factor_callRest_floor s n hb
  | false =>
    rw [factor_call_first s n hrec]
    exact factor_callRest_floor _ n
      (factorReplay_floor s.step s.factor s.stop_factor_lr n n s.count
        s.base_lr hb)

/-- Along any sequence of calls, `base_lr` stays at or above the floor. -/
theorem factor_runState_floor (l : List ℕ) :
    ∀ s : FactorScheduler, s.stop_factor_lr ≤ s.base_lr →
      s.stop_factor_lr ≤ (s.runState l).base_lr
        ∧ (s.runState l).stop_factor_lr = s.stop_factor_lr := by
  induction l with
  | nil => intro s hb; exact ⟨hb, rfl⟩
  | cons n ns ih =>
    intro s hb
    have hcons : s.runState (n :: ns) = ((s.call n).1).runState ns := rfl
    have hfl := (factor_call_fields s n).2.2.1
    have hstep := ih (s.call n).1
      (by rw [hfl]; exact factor_call_floor s n hb)
    rw [hcons]
    exact ⟨by rw [← hfl]; exact hstep.1, by rw [hstep.2, hfl]⟩

/-- With no slow-start window configured, every call returns the updated
`base_lr`. -/
theorem factor_callRest_rate_no_slow (s : FactorScheduler) (n : ℕ)
    (h0 : s.slow_step = 0) :
    (s.callRest n).2 = (s.callRest n).1.base_lr := by
  rcases hsl : s.slow_lr with _ | v <;>
    · simp only [FactorScheduler.callRest, hsl]
      rw [if_neg (by simp [h0])]
      split_ifs <;> rfl

/-- With no slow-start window configured, a full call returns the updated
`base_lr`. -/
theorem factor_call_rate_no_slow (s : FactorScheduler) (n : ℕ)
    (h0 : s.slow_step = 0) :
    (s.call n).2 = (s.call n).1.base_lr := by
  cases hrec : s.lr_recovered with
  | true =>
    rw [factor_call_recovered s n hrec]
    exact factor_callRest_rate_no_slow s n h0
  | false =>
    rw [factor_call_first s n hrec]
    exact factor_callRest_rate_no_slow _ n h0

/-- Every rate a slow-start-free interval scheduler ever returns is at or
above the floor. -/
theorem factor_run_rates_floor (l : List ℕ) :
    ∀ s : FactorScheduler, s.slow_step = 0 → s.stop_factor_lr ≤ s.base_lr →
      ∀ r ∈ (s.run l).2, s.stop_factor_lr ≤ r := by
  induction l with
  | nil => intro s _ _ r hr; simp [FactorScheduler.run] at hr
  | cons n ns ih =>
    intro s h0 hb r hr
    have hcons : (s.run (n :: ns)).2 = (s.call n).2 :: ((s.call n).1.run ns).2 :=
      rfl
    rw [hcons] at hr
    have hfl := (factor_call_fields s n).2.2.1
    have hslow := (factor_call_fields s n).2.2.2.1
    rcases List.mem_cons.mp hr with hfirst | hrest
    · rw [hfirst, factor_call_rate_no_slow s n h0]
      exact factor_call_floor s n hb
    · have := ih (s.call n).1 (by rw [hslow]; exact h0)
        (by rw [hfl]; exact factor_call_floor s n hb) r hrest
      rw [hfl] at this
      exact this

/-- A call on a recovered interval scheduler with decay factor at most `1`
and a non-negative rate either leaves `base_lr` no larger, or clamps it to
the floor. -/
theorem factor_call_mono (s : FactorScheduler) (n : ℕ)
    (hrec : s.lr_recovered = true) (hf1 : s.factor ≤ 1)
    (hb : 0 ≤ s.base_lr) :
    (s.call n).1.base_lr ≤ s.base_lr
      ∨ (s.call n).1.base_lr = s.stop_factor_lr := by
  rw [factor_call_recovered s n hrec]
  rcases hsl : s.slow_lr with _ | v <;>
    · simp only [FactorScheduler.callRest, hsl]
      split_ifs <;> first
        | exact Or.inl (le_refl _)
        | exact decayClamp_le_or_eq s.factor s.stop_factor_lr s.base_lr hf1 hb

/-- A call on a recovered milestone scheduler with decay factor in `[0, 1]`
and a non-negative rate never increases `base_lr` and keeps it
non-negative. -/
theorem multi_call_mono (m : MultiFactorScheduler) (n : ℕ)
    (hrec : m.lr_recovered = true) (hf0 : 0 ≤ m.factor) (hf1 : m.factor ≤ 1)
    (hb : 0 ≤ m.base_lr) :
    (m.call n).1.base_lr ≤ m.base_lr ∧ 0 ≤ (m.call n).1.base_lr := by
  rw [multi_call_recovered m n hrec]
  rcases hsl : m.slow_lr with _ | v <;>
    · simp only [MultiFactorScheduler.callRest, hsl]
      split_ifs <;> first
        | exact ⟨le_refl _, hb⟩
        | exact ⟨mul_le_of_le_one_right hb hf1, mul_nonneg hb hf0⟩

/-- Along any sequence of calls on a recovered milestone scheduler with
decay factor in `[0, 1]` and a non-negative rate, `base_lr` is
non-increasing. -/
theorem multi_runState_mono (l : List ℕ) :
    ∀ m : MultiFactorScheduler, m.lr_recovered = true → 0 ≤ m.factor →
      m.factor ≤ 1 → 0 ≤ m.base_lr →
      (m.runState l).base_lr ≤ m.base_lr := by
  induction l with
  | nil => intro m _ _ _ _; exact le_refl _
  | cons n ns ih =>
    intro m hrec hf0 hf1 hb
    have hcons : m.runState (n :: ns) = ((m.call n).1).runState ns := rfl
    have hfields := multi_call_fields m n
    have hmono := multi_call_mono m n hrec hf0 hf1 hb
    rw [hcons]
    exact le_trans
      (ih (m.call n).1 hfields.2.2.2 (by rw [hfields.2.1]; exact hf0)
        (by rw [hfields.2.1]; exact hf1) hmono.2)
      hmono.1

/-- The element checks of `MultiFactorScheduler.__init__` succeed exactly
when the scanned tail continues a strictly increasing chain from `prev` and
every element is at least `1`. -/
theorem checkStepList_ok (l : List ℤ) :
    ∀ prev : ℤ, (checkStepList prev l).isOk = true
      ↔ (List.Chain' (· < ·) (prev :: l) ∧ ∀ x ∈ l, 1 ≤ x) := by
  induction l with
  | nil =>
    intro prev
    simp [checkStepList, Except.isOk, Except.toBool]
  | cons x rest ih =>
    intro prev
    simp only [checkStepList]
    split_ifs with h1 h2
    · simp only [Except.isOk, Except.toBool, List.chain'_cons]
      constructor
      · intro h; exact absurd h (by simp)
      · rintro ⟨⟨hp, -⟩, -⟩; omega
    · simp only [Except.isOk, Except.toBool]
      constructor
      · intro h; exact absurd h (by simp)
      · rintro ⟨-, hall⟩
        have := hall x (List.mem_cons_self x rest)
        omega
    · rw [ih x]
      constructor
      · rintro ⟨hc, hall⟩
        refine ⟨List.chain'_cons.mpr ⟨by omega, hc⟩, ?_⟩
        intro y hy
        rcases List.mem_cons.mp hy with rfl | hy
        · omega
        · exact hall y hy
      · rintro ⟨hc, hall⟩
        refine ⟨(List.chain'_cons.mp hc).2, ?_⟩
        intro y hy
        exact hall y (List.mem_cons_of_mem x hy)

/-- `FactorScheduler.__init__` succeeds exactly when `1 ≤ step` and
`factor ≤ 1`; no other argument is validated. -/
theorem factor_init_ok (step : ℤ) (factor : ℚ) (slow_step : ℕ)
    (stop_factor_lr : ℚ) :
    (FactorScheduler.init step factor slow_step stop_factor_lr).isOk = true
      ↔ (1 ≤ step ∧ factor ≤ 1) := by
  unfold FactorScheduler.init
  split_ifs with h1 h2
  · simp only [Except.isOk, Except.toBool]
    constructor
    · intro h; exact Bool.noConfusion h
    · rintro ⟨hs, -⟩; exact absurd hs (not_le.mpr h1)
  · simp only [Except.isOk, Except.toBool]
    constructor
    · intro h; exact Bool.noConfusion h
    · rintro ⟨-, hf⟩; exact absurd hf (not_le.mpr h2)
  · simp only [Except.isOk, Except.toBool]
    constructor
    · intro _; exact ⟨by omega, not_lt.mp h2⟩
    · intro _; trivial

/-- `MultiFactorScheduler.__init__` succeeds exactly when the list is
non-empty, strictly increasing with every milestone at least `1`, the
factor is at most `1`, and the slow-start threshold is falsy or below the
first milestone. -/
theorem multi_init_ok (step : List ℤ) (factor : ℚ) (slow_step : ℕ) :
    (MultiFactorScheduler.init step factor slow_step).isOk = true
      ↔ (step ≠ [] ∧ List.Chain' (· < ·) step ∧ (∀ x ∈ step, 1 ≤ x)
          ∧ factor ≤ 1
          ∧ (slow_step = 0 ∨ (slow_step : ℤ) < step.headI)) := by
  cases step with
  | nil => simp [MultiFactorScheduler.init, Except.isOk, Except.toBool]
  | cons x0 rest =>
    simp only [MultiFactorScheduler.init, List.headI]
    by_cases h1 : x0 < 1
    · rw [if_pos h1]
      simp only [Except.isOk, Except.toBool]
      constructor
      · intro h; exact Bool.noConfusion h
      · rintro ⟨-, -, hall, -⟩
        have := hall x0 (List.mem_cons_self x0 rest)
        omega
    · rw [if_neg h1]
      rcases hc : checkStepList x0 rest with e | u
      · simp only [Except.isOk, Except.toBool]
        constructor
        · intro h; exact Bool.noConfusion h
        · rintro ⟨-, hchain, hall, -⟩
          have hok : (checkStepList x0 rest).isOk = true :=
            (checkStepList_ok rest x0).mpr
              ⟨hchain, fun y hy => hall y (List.mem_cons_of_mem x0 hy)⟩
          rw [hc] at hok
          exact Bool.noConfusion hok
      · have hchain := (checkStepList_ok rest x0).mp (by rw [hc]; rfl)
        simp only []
        by_cases h2 : 1 < factor
        · rw [if_pos h2]
          simp only [Except.isOk, Except.toBool]
          constructor
          · intro h; exact Bool.noConfusion h
          · rintro ⟨-, -, -, hf, -⟩
            exact absurd hf (not_le.mpr h2)
        · rw [if_neg h2]
          by_cases h3 : slow_step ≠ 0 ∧ x0 ≤ (slow_step : ℤ)
          · rw [if_pos h3]
            simp only [Except.isOk, Except.toBool]
            constructor
            · intro h; exact Bool.noConfusion h
            · rintro ⟨-, -, -, -, hs⟩
              omega
          · rw [if_neg h3]
            simp only [Except.isOk, Except.toBool]
            constructor
            · intro _
              refine ⟨by simp, hchain.1, ?_, not_lt.mp h2, ?_⟩
              · intro y hy
                rcases List.mem_cons.mp hy with rfl | hy
                · omega
                · exact hchain.2 y hy
              · by_cases hz : slow_step = 0
                · exact Or.inl hz
                · refine Or.inr ?_
                  rcases not_and_or.mp h3 with h | h
                  · exact absurd hz (by simpa using h)
                  · omega
            · intro _; trivial

/-- C2: the claim fails on the code: stepped delivery of `[0, 31]` to an
interval scheduler (`interval=10`, `decay_factor=1/2`, initial rate `1`)
ends with rate `1/2` (one decay, since the steady section decays at most
once per call), while a fresh scheduler fed only the last counter `31`
returns `1/8`. -/
theorem C2_counterexample :
    ((mkFactor 10 (1/2) (1/100000000) 0 1).run [0, 31]).2 = [1, 1/2]
      ∧ ((mkFactor 10 (1/2) (1/100000000) 0 1).call 31).2 = 1/8
      ∧ ((1 : ℚ)/2 ≠ 1/8) := by
  refine ⟨?_, ?_, by norm_num⟩ <;>
    norm_num [FactorScheduler.run, FactorScheduler.call,
      FactorScheduler.callRest, factorReplay, decayClamp, mkFactor]

/-- C2 (amended): replay equivalence holds for gap-free deliveries: feeding
the consecutive counters `0, 1, …, n` one call at a time yields the same
final returned rate as feeding only `n` to a freshly constructed scheduler,
for the interval variant whenever the slow-start threshold does not exceed
the interval, and for the milestone variant whenever the milestones are
strictly increasing and the threshold is unset or below the first
milestone (as its constructor enforces). -/
theorem C2_amended :
    (∀ (st : ℕ) (f fl b0 : ℚ) (slow : ℕ) (n : ℕ), 1 ≤ st → slow ≤ st →
      (((mkFactor st f fl slow b0).runState (List.range n)).call n).2
        = ((mkFactor st f fl slow b0).call n).2)
    ∧ (∀ (steps : List ℕ) (f b0 : ℚ) (slow : ℕ) (n : ℕ),
        (∀ i, i + 1 < steps.length → steps.getD i 0 < steps.getD (i + 1) 0) →
        (slow = 0 ∨ slow < steps.getD 0 0) →
        (((mkMulti steps f slow b0).runState (List.range n)).call n).2
          = ((mkMulti steps f slow b0).call n).2) :=
  ⟨fun st f fl b0 slow n h1 h2 =>
      factor_stepped_final_rate st f fl b0 slow h1 h2 n,
   fun steps f b0 slow n h1 h2 =>
      multi_stepped_final_rate steps f b0 slow h1 h2 n⟩

theorem C2_amended_witness :
    (((mkFactor 10 (1/2) (1/100000000) 0 1).runState (List.range 31)).call
        31).2
      = ((mkFactor 10 (1/2) (1/100000000) 0 1).call 31).2 :=
  C2_amended.1 10 (1/2) (1/100000000) 1 0 31 (by norm_num) (by norm_num)

/-- C3 (amended): construction raises exactly under these faults:
`FactorScheduler.__init__` raises iff `interval < 1` or
`decay_factor > 1` — it does not validate the slow-start threshold at
all — and `MultiFactorScheduler.__init__` raises iff the milestone list is
empty, not strictly increasing, contains a milestone `< 1`, the factor
exceeds `1`, or a truthy slow-start threshold reaches the first
milestone. -/
theorem C3_amended :
    (∀ (step : ℤ) (factor : ℚ) (slow_step : ℕ) (fl : ℚ),
      (FactorScheduler.init step factor slow_step fl).isOk = true
        ↔ (1 ≤ step ∧ factor ≤ 1))
    ∧ (∀ (step : List ℤ) (factor : ℚ) (slow_step : ℕ),
      (MultiFactorScheduler.init step factor slow_step).isOk = true
        ↔ (step ≠ [] ∧ List.Chain' (· < ·) step ∧ (∀ x ∈ step, 1 ≤ x)
            ∧ factor ≤ 1
            ∧ (slow_step = 0 ∨ (slow_step : ℤ) < step.headI))) :=
  ⟨fun step factor slow_step fl => factor_init_ok step factor slow_step fl,
   fun step factor slow_step => multi_init_ok step factor slow_step⟩

/-- C6 (amended): replay happens at most once, and under the spec's own
slow-start precondition (threshold at most the interval, resp. below the
first milestone) the single catch-up reconstructs the stepped state.
Conjuncts: the flag is true after every call and a recovered scheduler
skips the recovery block entirely (both variants); a fresh first call at
`0` leaves the rate state unchanged; a fresh first call at any `n` leaves
`base_lr` and the counters exactly as stepped delivery of `0, …, n`
would. -/
theorem C6_amended :
    (∀ (s : FactorScheduler) (n : ℕ), (s.call n).1.lr_recovered = true
      ∧ (s.lr_recovered = true → s.call n = s.callRest n))
    ∧ (∀ (st : ℕ) (f fl b0 : ℚ) (slow : ℕ) (n : ℕ), 1 ≤ st → slow ≤ st →
        ((mkFactor st f fl slow b0).call 0).1.base_lr = b0
        ∧ ((mkFactor st f fl slow b0).call 0).1.count = 0
        ∧ ((mkFactor st f fl slow b0).call n).1.base_lr
            = ((mkFactor st f fl slow b0).runState
                (List.range (n + 1))).base_lr
        ∧ ((mkFactor st f fl slow b0).call n).1.count
            = ((mkFactor st f fl slow b0).runState (List.range (n + 1))).count)
    ∧ (∀ (m : MultiFactorScheduler) (n : ℕ), (m.call n).1.lr_recovered = true
      ∧ (m.lr_recovered = true → m.call n = m.callRest n))
    ∧ (∀ (steps : List ℕ) (f b0 : ℚ) (slow : ℕ) (n : ℕ),
        (∀ i, i + 1 < steps.length → steps.getD i 0 < steps.getD (i + 1) 0) →
        (slow = 0 ∨ slow < steps.getD 0 0) →
        ((mkMulti steps f slow b0).call 0).1.base_lr = b0
        ∧ ((mkMulti steps f slow b0).call 0).1.cur_step_ind = 0
        ∧ ((mkMulti steps f slow b0).call 0).1.count = 0
        ∧ ((mkMulti steps f slow b0).call n).1.base_lr
            = ((mkMulti steps f slow b0).runState
                (List.range (n + 1))).base_lr
        ∧ ((mkMulti steps f slow b0).call n).1.cur_step_ind
            = ((mkMulti steps f slow b0).runState
                (List.range (n + 1))).cur_step_ind
        ∧ ((mkMulti steps f slow b0).call n).1.count
            = ((mkMulti steps f slow b0).runState
                (List.range (n + 1))).count) := by
  refine ⟨?_, ?_, ?_, ?_⟩
  · intro s n
    exact ⟨(factor_call_fields s n).2.2.2.2, factor_call_recovered s n⟩
  · intro st f fl b0 slow n hst hsl
    have hs0 := factor_first_call_state st f fl b0 slow hst hsl 0
    have hs := factor_first_call_state st f fl b0 slow hst hsl n
    have hr := factor_runState_range st f fl b0 slow hst hsl n
    refine ⟨congrArg Prod.snd hs0, congrArg Prod.fst hs0, ?_, ?_⟩
    · rw [hr]
      show ((mkFactor st f fl slow b0).call n).1.base_lr
        = (factorStepped st f fl b0 n).2
      rw [factorStepped_eq_replay st f fl b0 hst n]
      exact congrArg Prod.snd hs
    · rw [hr]
      show ((mkFactor st f fl slow b0).call n).1.count
        = (factorStepped st f fl b0 n).1
      rw [factorStepped_eq_replay st f fl b0 hst n]
      exact congrArg Prod.fst hs
  · intro m n
    exact ⟨(multi_call_fields m n).2.2.2, multi_call_recovered m n⟩
  · intro steps f b0 slow n hadj hslow
    have hwin := window_le_steps steps slow hadj hslow
    have hz : multiReplay steps f steps.length 0 0 0 b0 = (0, 0, b0) :=
      multiReplay_stop steps f steps.length 0 0 0 b0 (by rintro ⟨-, h2⟩; omega)
    have hs0 := (multi_first_call_state steps f b0 slow hwin 0).trans hz
    have hs := multi_first_call_state steps f b0 slow hwin n
    have hr := multi_runState_range steps f b0 slow hwin n
    refine ⟨congrArg (fun t => t.2.2) hs0, congrArg Prod.fst hs0,
      congrArg (fun t => t.2.1) hs0, ?_, ?_, ?_⟩
    · rw [hr]
      show ((mkMulti steps f slow b0).call n).1.base_lr
        = (multiStepped steps f b0 n).2.2
      rw [multiStepped_eq_replay steps f b0 hadj n]
      exact congrArg (fun t => t.2.2) hs
    · rw [hr]
      show ((mkMulti steps f slow b0).call n).1.cur_step_ind
        = (multiStepped steps f b0 n).1
      rw [multiStepped_eq_replay steps f b0 hadj n]
      exact congrArg Prod.fst hs
    · rw [hr]
      show ((mkMulti steps f slow b0).call n).1.count
        = (multiStepped steps f b0 n).2.1
      rw [multiStepped_eq_replay steps f b0 hadj n]
      exact congrArg (fun t => t.2.1) hs

theorem C6_amended_witness :
    ((mkFactor 10 (1/2) (1/100000000) 3 1).call 31).1.base_lr
      = ((mkFactor 10 (1/2) (1/100000000) 3 1).runState
          (List.range 32)).base_lr :=
  (C6_amended.2.1 10 (1/2) (1/100000000) 1 3 31 (by norm_num)
    (by norm_num)).2.2.1

/-- C7 (amended): after replay, with a decay factor in `[0, 1]` and a
non-negative rate, each call either leaves `base_lr` no larger or clamps
it exactly to `stop_factor_lr`; along any sequence of calls `base_lr`
never drops below the floor once at or above it (interval variant; the
replay loop included); and the milestone variant's `base_lr` is
non-increasing along any sequence of calls.  (The original claim, over
every constructor-accepted `decay_factor ≤ 1` and arbitrary initial rate,
is refuted by `C7_counterexample`: a negative factor with a negative rate
increases `base_lr`.) -/
theorem C7_amended :
    (∀ (s : FactorScheduler) (n : ℕ), s.lr_recovered = true →
      s.factor ≤ 1 → 0 ≤ s.base_lr →
      ((s.call n).1.base_lr ≤ s.base_lr
        ∨ (s.call n).1.base_lr = s.stop_factor_lr))
    ∧ (∀ (s : FactorScheduler) (l : List ℕ),
        s.stop_factor_lr ≤ s.base_lr →
        s.stop_factor_lr ≤ (s.runState l).base_lr)
    ∧ (∀ (m : MultiFactorScheduler) (l : List ℕ), m.lr_recovered = true →
        0 ≤ m.factor → m.factor ≤ 1 → 0 ≤ m.base_lr →
        (m.runState l).base_lr ≤ m.base_lr) :=
  ⟨fun s n hrec hf1 hb => factor_call_mono s n hrec hf1 hb,
   fun s l hb => (factor_runState_floor l s hb).1,
   fun m l hrec hf0 hf1 hb => multi_runState_mono l m hrec hf0 hf1 hb⟩

theorem C7_amended_witness :
    ((({ mkFactor 10 (1/2) (1/100) 0 1 with
         lr_recovered := true } : FactorScheduler).call 31).1.base_lr
        ≤ ({ mkFactor 10 (1/2) (1/100) 0 1 with
             lr_recovered := true } : FactorScheduler).base_lr
      ∨ (({ mkFactor 10 (1/2) (1/100) 0 1 with
            lr_recovered := true } : FactorScheduler).call 31).1.base_lr
          = ({ mkFactor 10 (1/2) (1/100) 0 1 with
               lr_recovered := true } : FactorScheduler).stop_factor_lr)
      ∧ (mkFactor 10 (1/2) (1/100) 0 1).stop_factor_lr
          ≤ ((mkFactor 10 (1/2) (1/100) 0 1).runState [0, 11, 31]).base_lr
      ∧ ((mkMulti [5, 10, 20] (1/10) 0 1).runState [0, 6, 15]).base_lr
          ≤ ({ mkMulti [5, 10, 20] (1/10) 0 1 with
               lr_recovered := true } : MultiFactorScheduler).base_lr :=
  ⟨C7_amended.1 _ 31 rfl (by norm_num [mkFactor]) (by norm_num [mkFactor]),
   C7_amended.2.1 _ [0, 11, 31] (by norm_num [mkFactor]),
   le_trans
     (by
       norm_num [MultiFactorScheduler.runState, MultiFactorScheduler.call,
         MultiFactorScheduler.callRest, multiReplay, mkMulti])
     (C7_amended.2.2 ({ mkMulti [5, 10, 20] (1/10) 0 1 with
         lr_recovered := true }) [0, 6, 15] rfl (by norm_num [mkMulti])
       (by norm_num [mkMulti]) (by norm_num [mkMulti]))⟩

/-- C8: boundary crossings are strict — with `interval=10`,
`decay_factor=1/2`, `floor=1/100`, initial rate `1`, the calls at
`0, 10, 11` return `1, 1, 1/2` (no decay at equality `10 = count +
interval`) — and no returned rate of this scheduler is ever below the
floor `1/100`, whatever the sequence of calls. -/
theorem C8_boundary_and_floor :
    ((mkFactor 10 (1/2) (1/100) 0 1).run [0, 10, 11]).2 = [1, 1, 1/2]
      ∧ ∀ (l : List ℕ) (r : ℚ),
          r ∈ ((mkFactor 10 (1/2) (1/100) 0 1).run l).2 → (1 : ℚ)/100 ≤ r := by
  constructor
  · norm_num [FactorScheduler.run, FactorScheduler.call,
      FactorScheduler.callRest, factorReplay, decayClamp, mkFactor]
  · intro l r hr
    exact factor_run_rates_floor l (mkFactor 10 (1/2) (1/100) 0 1) rfl
      (by norm_num [mkFactor]) r hr

theorem C8_boundary_and_floor_witness :
    (1 : ℚ)/100 ≤ ((mkFactor 10 (1/2) (1/100) 0 1).run [31]).2.getD 0 0 := by
  refine C8_boundary_and_floor.2 [31] _ ?_
  norm_num [FactorScheduler.run, FactorScheduler.call,
    FactorScheduler.callRest, factorReplay, decayClamp, mkFactor, List.getD]

/-- C10: after the recovery flag is set, every call multiplies `base_lr`
by the decay factor at most once — the new `base_lr` is either unchanged
or a single clamped decay of the old — and the recovery block (the
catch-up `while` loop) is skipped entirely. -/
theorem C10_single_decay_after_recovery :
    ∀ (s : FactorScheduler) (n : ℕ), s.lr_recovered = true →
      ((s.call n).1.base_lr = s.base_lr
        ∨ (s.call n).1.base_lr = decayClamp s.factor s.stop_factor_lr s.base_lr)
      ∧ s.call n = s.callRest n := by
  intro s n h
  refine ⟨?_, factor_call_recovered s n h⟩
  rw [factor_call_recovered s n h]
  rcases hsl : s.slow_lr with _ | v <;>
    · simp only [FactorScheduler.callRest, hsl]
      split_ifs <;> first
        | exact Or.inl rfl
        | exact Or.inr rfl

theorem C10_single_decay_after_recovery_witness :
    ((({ mkFactor 10 (1/2) (1/100000000) 0 1 with
         lr_recovered := true } : FactorScheduler).call 31).1.base_lr
        = ({ mkFactor 10 (1/2) (1/100000000) 0 1 with
             lr_recovered := true } : FactorScheduler).base_lr
      ∨ (({ mkFactor 10 (1/2) (1/100000000) 0 1 with
            lr_recovered := true } : FactorScheduler).call 31).1.base_lr
          = decayClamp ({ mkFactor 10 (1/2) (1/100000000) 0 1 with
              lr_recovered := true } : FactorScheduler).factor
              ({ mkFactor 10 (1/2) (1/100000000) 0 1 with
                 lr_recovered := true } : FactorScheduler).stop_factor_lr
              ({ mkFactor 10 (1/2) (1/100000000) 0 1 with
                 lr_recovered := true } : FactorScheduler).base_lr)
      ∧ ({ mkFactor 10 (1/2) (1/100000000) 0 1 with
           lr_recovered := true } : FactorScheduler).call 31
          = ({ mkFactor 10 (1/2) (1/100000000) 0 1 with
               lr_recovered := true } : FactorScheduler).callRest 31 :=
  C10_single_decay_after_recovery
    ({ mkFactor 10 (1/2) (1/100000000) 0 1 with lr_recovered := true }) 31 rfl
